import Mathlib

/-!
Verification of the FluidFramework shared-tree / merge-tree specification.

Shallow embedding of:
* `runTransaction` from `packages/dds/tree/src/shared-tree/treeApi.ts`
* `contains` from the same file
* `structuralName` / `SchemaFactory.array` / `SchemaFactory.map` from the
  simple-tree schema factory
* the schema caching functions from
  `packages/dds/tree/src/simple-tree/schemaCaching.ts`
* the merge-tree CRDT core (segments, collaboration window, perspectives,
  comparator, op pipeline), modelled from the spec since its source is not
  part of the provided files.
-/

namespace FluidFramework

/-! ### Transactions (treeApi.ts `runTransaction`)

The control flow is embedded from the source function
`runTransaction(checkout, transaction)`:
`start()`; run the body; on a thrown error `abort()` and rethrow;
on a `"rollback"` result `abort()`; otherwise `commit()`.

The semantics of `start` / `abort` / `commit` live in `TreeCheckout`,
which is not among the provided source files; they are modelled from the
spec (design note: each local edit pushes an inverse edit descriptor onto a
per-transaction stack; rollback replays the stack in reverse before the
transaction's ops are ever submitted to the network).
-/

/-- An edit descriptor: an opaque change applied to the tree. -/
abbrev Edit := String

/-- Modelled from the spec: the state of a `TreeCheckout` reachable by this
model, namely the tree content (as the log of applied edits, newest first)
and the ops already submitted to the network. The transaction machinery of
`TreeCheckout` (`start`/`abort`/`commit`) is not among the provided sources
and is modelled from the spec's compensating-edit-stack design note. -/
structure Checkout where
  content : List Edit
  submitted : List Edit
deriving DecidableEq

/-- Applying one edit to tree content (edits are modelled as appends to the
log, so that each edit has an inverse: dropping the newest entry). -/
def applyEdit (e : Edit) (c : List Edit) : List Edit := e :: c

/-- Modelled from the spec: undo one edit via its inverse descriptor
(drop the newest log entry). -/
def undoEdit (c : List Edit) : List Edit := c.tail

/-- Run the edits of a transaction body in order, building the
per-transaction stack of inverse-edit descriptors (newest first).
Returns the mutated content and the stack. -/
def applyBody : List Edit → List Edit → List Edit → List Edit × List Edit
  | [], c, stk => (c, stk)
  | e :: rest, c, stk => applyBody rest (applyEdit e c) (e :: stk)

/-- Modelled from the spec: `transaction.abort()` replays the
inverse-edit stack in reverse order of application (the stack is LIFO, so
replay is front to back), before any of the transaction's ops are submitted
to the network. -/
def txAbort : List Edit → List Edit → List Edit
  | [], c => c
  | _ :: stk, c => txAbort stk (undoEdit c)

/-- How a transaction body ends: a normal return, the `"rollback"` sentinel
value, or a thrown exception (identified by a code). -/
inductive TxOutcome where
  | normal
  | rollback
  | thrown (e : Nat)
deriving DecidableEq

/-- A transaction body: the edits it performs, and how it ends.
A body that throws midway is represented by the edits made before the
throw followed by the `thrown` outcome. -/
structure TxBody where
  edits : List Edit
  outcome : TxOutcome
deriving DecidableEq

/-- Result of `runTransaction`: the checkout afterwards, and the exception
propagated to the caller, if any. -/
structure RunResult where
  checkout : Checkout
  thrown : Option Nat
deriving DecidableEq

/-- Embedding of `runTransaction(checkout, transaction)` from
`treeApi.ts`: start the transaction, run the body; if the body throws,
abort and propagate the same exception; if it returns `"rollback"`, abort;
otherwise commit (the transaction's ops are submitted on commit). -/
def runTransaction (c : Checkout) (body : TxBody) : RunResult :=
  let s := applyBody body.edits c.content []
  match body.outcome with
  | .thrown e =>
      { checkout := { content := txAbort s.2 s.1, submitted := c.submitted },
        thrown := some e }
  | .rollback =>
      { checkout := { content := txAbort s.2 s.1, submitted := c.submitted },
        thrown := none }
  | .normal =>
      { checkout := { content := s.1, submitted := c.submitted ++ body.edits },
        thrown := none }

/-! ### `contains` (treeApi.ts)

The source walks the parents of `other` looking for `node`:
```
let toCheck = child;
while (toCheck !== undefined) \x7b
  if (toCheck === parent) return true;
  toCheck = treeApi.parent(toCheck);
\x7d
return false;
```
Tree nodes are modelled arena-style by natural-number handles; a parent
always has a smaller handle than its child (parents exist before their
children are inserted under them), which makes the walk terminate. -/

/-- A forest of tree nodes: every node has an optional parent, and a
parent's handle is strictly smaller than its child's. -/
structure Forest where
  parentOf : Nat → Option Nat
  parent_lt : ∀ n p, parentOf n = some p → p < n

/-- Embedding of `treeApi.contains(node, other)`: walk `other`'s parent
chain looking for `node`. -/
def treeContains (f : Forest) (node : Nat) (other : Nat) : Bool :=
  if other = node then true
  else
    match h : f.parentOf other with
    | none => false
    | some p => treeContains f node p
termination_by other
decreasing_by exact f.parent_lt other p h

/-- The chain of inclusive ancestors of a node: the node itself followed by
the ancestors of its parent. -/
def ancestorChain (f : Forest) (other : Nat) : List Nat :=
  other ::
    match h : f.parentOf other with
    | none => []
    | some p => ancestorChain f p
termination_by other
decreasing_by exact f.parent_lt other p h

/-! ### `structuralName` and structurally named schema (SchemaFactory)

From the schema factory source: `structuralName(collectionName, allowedTypes)`
maps the allowed types to their identifiers, sorts the names
(`names.sort()`, ascending lexicographic string order), serializes them with
`JSON.stringify`, and returns the string `collectionName<inner>`.
`SchemaFactory.array` / `SchemaFactory.map` with only allowed types use that
name as a key into the factory's `structuralTypes` map via `getOrCreate`. -/

/-- A `TreeNodeSchema` as far as `structuralName` is concerned: only its
`identifier` string is consulted. -/
structure SchemaId where
  identifier : String
deriving DecidableEq

/-- One hexadecimal digit, lowercase, as produced by `JSON.stringify`
unicode escapes. -/
def hexDigit (n : Nat) : Char :=
  if n < 10 then Char.ofNat (48 + n) else Char.ofNat (87 + n)

/-- Four-digit hexadecimal rendering of a code point below 0x10000. -/
def hex4 (n : Nat) : String :=
  String.mk [hexDigit (n / 4096 % 16), hexDigit (n / 256 % 16),
    hexDigit (n / 16 % 16), hexDigit (n % 16)]

/-- `JSON.stringify` escaping of a single character inside a string. -/
def jsonEscapeChar (c : Char) : String :=
  if c = '"' then "\\\""
  else if c = '\\' then "\\\\"
  else if c = '\n' then "\\n"
  else if c = '\r' then "\\r"
  else if c = '\t' then "\\t"
  else if c = '\x08' then "\\b"
  else if c = '\x0c' then "\\f"
  else if c.toNat < 32 then "\\u" ++ hex4 c.toNat
  else String.singleton c

/-- `JSON.stringify` of one string: quoted, with quotes and escapes handled. -/
def jsonQuote (s : String) : String :=
  "\"" ++ String.join (s.data.map jsonEscapeChar) ++ "\""

/-- `JSON.stringify` of an array of strings. -/
def jsonStringifyStrings (names : List String) : String :=
  "[" ++ String.intercalate "," (names.map jsonQuote) ++ "]"

/-- Embedding of `structuralName(collectionName, allowedTypes)` (array
case; the source wraps a single schema into a one-element array first):
collect the identifiers, sort them so the name is order independent, and
quote them via JSON so names cannot collide. -/
def structuralName (collectionName : String) (allowedTypes : List SchemaId) : String :=
  let names := allowedTypes.map SchemaId.identifier
  let sorted := List.insertionSort (· ≤ ·) names
  collectionName ++ "<" ++ jsonStringifyStrings sorted ++ ">"

/-- A schema object produced by the structurally-named factory overloads.
`createdAt` is the creation counter: two objects are the same JavaScript
object exactly when all fields, including `createdAt`, agree. -/
structure StructSchema where
  name : String
  createdAt : Nat
deriving DecidableEq

/-- The relevant state of a `SchemaFactory`: its `structuralTypes` map
(modelled as an insertion-ordered association list) and the creation
counter used to give fresh identities to newly constructed schema. -/
structure SchemaFactoryState where
  structuralTypes : List (String × StructSchema)
  counter : Nat
deriving DecidableEq

/-- Lookup in the `structuralTypes` map. -/
def lookupStructural : List (String × StructSchema) → String → Option StructSchema
  | [], _ => none
  | (k, v) :: rest, key => if k = key then some v else lookupStructural rest key

/-- Embedding of `getOrCreate(map, key, mk)` from the util package: return
the cached value if present, otherwise create, cache and return a new one. -/
def getOrCreate (st : SchemaFactoryState) (key : String) :
    StructSchema × SchemaFactoryState :=
  match lookupStructural st.structuralTypes key with
  | some v => (v, st)
  | none =>
      let v : StructSchema := ⟨key, st.counter⟩
      (v, ⟨(key, v) :: st.structuralTypes, st.counter + 1⟩)

/-- Embedding of the structurally named overload of `SchemaFactory.array`:
`getOrCreate(this.structuralTypes, structuralName("Array", types), ...)`. -/
def factoryArray (st : SchemaFactoryState) (types : List SchemaId) :
    StructSchema × SchemaFactoryState :=
  getOrCreate st (structuralName "Array" types)

/-- Embedding of the structurally named overload of `SchemaFactory.map`:
`getOrCreate(this.structuralTypes, structuralName("Map", types), ...)`. -/
def factoryMap (st : SchemaFactoryState) (types : List SchemaId) :
    StructSchema × SchemaFactoryState :=
  getOrCreate st (structuralName "Map" types)

/-! ### Schema caching (schemaCaching.ts)

The source stores, via two unique symbols, the flex schema on the simple
schema object and the simple schema on the flex schema object.
Schema objects are modelled by natural-number handles and the two
symbol-keyed properties by association lists (a pair is present exactly
when the property has been set on that object). -/

/-- The global marking state of `schemaCaching.ts`: which simple schemas
carry a `flexSchemaSymbol` property and which flex schemas carry a
`simpleNodeSchemaSymbol` property. Initially (before any marking) both are
empty. -/
structure CachingState where
  flexOf : List (Nat × Nat)
  simpleOf : List (Nat × Nat)
deriving DecidableEq

/-- Association-list lookup used for the symbol-keyed properties. -/
def lookupNat : List (Nat × Nat) → Nat → Option Nat
  | [], _ => none
  | (k, v) :: rest, key => if k = key then some v else lookupNat rest key

/-- The state before any schema has been marked. -/
def emptyCachingState : CachingState := ⟨[], []⟩

/-- Embedding of `cachedFlexSchemaFromClassSchema(schema)`: read the
`flexSchemaSymbol` property of the simple schema. -/
def cachedFlexSchemaFromClassSchema (simple : Nat) (st : CachingState) : Option Nat :=
  lookupNat st.flexOf simple

/-- Embedding of `tryGetSimpleNodeSchema(flexSchema)`: read the
`simpleNodeSchemaSymbol` property of the flex schema, `undefined` (`none`)
when it is absent. -/
def tryGetSimpleNodeSchema (flex : Nat) (st : CachingState) : Option Nat :=
  lookupNat st.simpleOf flex

/-- Embedding of `setFlexSchemaFromClassSchema(simple, flex)`: assert that
neither object is already marked (`none` models the assertion failure),
then set both symbol properties. -/
def setFlexSchemaFromClassSchema (simple flex : Nat) (st : CachingState) :
    Option CachingState :=
  if (lookupNat st.flexOf simple).isSome then none
  else if (lookupNat st.simpleOf flex).isSome then none
  else some ⟨(simple, flex) :: st.flexOf, (flex, simple) :: st.simpleOf⟩

/-- Run a sequence of `setFlexSchemaFromClassSchema` calls; a call whose
assertion fails (it throws) leaves the state unchanged. -/
def runSets : List (Nat × Nat) → CachingState → CachingState
  | [], st => st
  | (s, f) :: rest, st => runSets rest ((setFlexSchemaFromClassSchema s f st).getD st)

/-! ### Merge-tree CRDT core

Modelled from the spec: the merge-tree package source (segments,
collaboration window, perspectives, ordering comparator, op application
pipeline) is not among the provided files; every definition in this section
follows the spec's data model (section 3), component design (section 4) and
pipeline state machine (section 4.4). The B-tree node structure is a
representation detail; the model keeps the ordered segment sequence
directly, which the spec's contracts are stated over. -/

/-- Modelled from the spec: a segment, the smallest unit of content.
`seq = none` is the sentinel for a not-yet-sequenced (pending local)
insert; `removedSeq = none` means not tombstoned; `localSeq` is the
per-client counter for not-yet-acked local ops; `props` holds annotation
metadata merged last-writer-wins per key. -/
structure Segment where
  segId : Nat
  len : Nat
  content : String
  seq : Option Nat
  clientId : String
  localSeq : Option Nat
  removedSeq : Option Nat
  props : List (String × Nat)
deriving DecidableEq

/-- Modelled from the spec: a perspective is either `Local` (all sequenced
state plus all locally pending edits) or `Remote seq` (state as of exactly
sequence number `seq`). -/
inductive Perspective where
  | localView
  | remote (seq : Nat)
deriving DecidableEq

/-- Modelled from the spec: visibility of a segment under a perspective.
Under `Local` every non-tombstoned segment (pending or sequenced) is
visible. Under `Remote q` a segment is visible if it was sequenced at or
before `q` and not tombstoned at or before `q`. -/
def Segment.visibleIn (s : Segment) : Perspective → Bool
  | .localView => s.removedSeq.isNone
  | .remote q =>
      (match s.seq with
        | some i => decide (i ≤ q)
        | none => false) &&
      (match s.removedSeq with
        | some r => decide (q < r)
        | none => true)

/-- The number of positions a segment contributes under a perspective. -/
def visLen (p : Perspective) (s : Segment) : Nat :=
  if s.visibleIn p then s.len else 0

/-- Modelled from the spec: `lengthAt(perspective)`, the total visible
length of the sequence as of that perspective. -/
def lengthAt (p : Perspective) (segs : List Segment) : Nat :=
  (segs.map (visLen p)).sum

/-- The first half of splitting a segment at offset `k`: same metadata,
length `k`. -/
def splitLeft (s : Segment) (k : Nat) : Segment := { s with len := k }

/-- The second half of splitting a segment at offset `k`: same metadata,
the remaining length. -/
def splitRight (s : Segment) (k : Nat) : Segment := { s with len := s.len - k }

/-- Modelled from the spec: splice a new segment into the sequence at
visible position `pos` under perspective `p`, splitting the segment at
`pos` if the position falls strictly inside it. Positions at segment
boundaries step over invisible (tombstoned or not-yet-visible) segments. -/
def spliceAt (p : Perspective) (pos : Nat) (n : Segment) :
    List Segment → List Segment
  | [] => [n]
  | s :: rest =>
      let v := visLen p s
      if pos < v then
        if pos = 0 then n :: s :: rest
        else splitLeft s pos :: n :: splitRight s pos :: rest
      else s :: spliceAt p (pos - v) n rest

/-- Helper for `queryPosition`: scan the sequence accumulating the visible
length before the queried segment identity. -/
def queryPositionAux (p : Perspective) (sid : Nat) (acc : Nat) :
    List Segment → Option Nat
  | [] => none
  | s :: rest =>
      if s.segId = sid then some acc
      else queryPositionAux p sid (acc + visLen p s) rest

/-- Modelled from the spec: `queryPosition(segmentRef, perspective)`
projects a previously obtained segment identity to its position under the
given perspective; `none` models `NotFound` (segment evicted). -/
def queryPosition (p : Perspective) (sid : Nat) (segs : List Segment) :
    Option Nat :=
  queryPositionAux p sid 0 segs

/-- Modelled from the spec's error taxonomy (section 7). -/
inductive MergeError where
  | invalidPosition
  | invalidRange
  | protocolViolation
  | staleReference
deriving DecidableEq

/-- Modelled from the spec: `insert(position, content, perspective)` on the
segment sequence; fails with `InvalidPosition` if the position exceeds the
current length under the given perspective. -/
def insertSeg (pos : Nat) (n : Segment) (p : Perspective)
    (segs : List Segment) : Except MergeError (List Segment) :=
  if pos > lengthAt p segs then .error .invalidPosition
  else .ok (spliceAt p pos n segs)

/-- Modelled from the spec: the replica state of one merge tree — the
ordered segment sequence, the collaboration window (`minSeq`,
`currentSeq`), the local client identity, the counters supplying fresh
local sequence numbers and segment identities, the FIFO pending-edit log
(local sequence numbers awaiting acknowledgment), and the fail-closed
corruption flag raised by a protocol violation. -/
structure MergeTree where
  segments : List Segment
  minSeq : Nat
  currentSeq : Nat
  localClientId : String
  nextLocalSeq : Nat
  nextSegId : Nat
  pending : List Nat
  corrupted : Bool
deriving DecidableEq

/-- All segment identities in the tree are below the fresh-identity
counter (so a newly created segment identity is new). -/
def idsFresh (st : MergeTree) : Bool :=
  st.segments.all (fun s => s.segId < st.nextSegId)

/-- Modelled from the spec: a local insert — validated against the local
perspective, applied optimistically as a pending segment (`seq` sentinel,
fresh `localSeq`), the edit recorded at the back of the FIFO pending log.
Returns the new segment's identity. -/
def insertLocal (pos : Nat) (content : String) (st : MergeTree) :
    Except MergeError (Nat × MergeTree) :=
  match insertSeg pos
      { segId := st.nextSegId, len := content.length, content := content,
        seq := none, clientId := st.localClientId,
        localSeq := some st.nextLocalSeq, removedSeq := none, props := [] }
      .localView st.segments with
  | .error e => .error e
  | .ok segs =>
      .ok (st.nextSegId,
        { st with segments := segs,
                  nextLocalSeq := st.nextLocalSeq + 1,
                  nextSegId := st.nextSegId + 1,
                  pending := st.pending ++ [st.nextLocalSeq] })

/-- State-passing wrapper for a local insert: a rejected edit leaves the
replica state (and its pending log) untouched. -/
def tryInsertLocal (pos : Nat) (content : String) (st : MergeTree) :
    Option MergeError × MergeTree :=
  match insertLocal pos content st with
  | .error e => (some e, st)
  | .ok r => (none, r.2)

/-- Modelled from the spec: apply `f` to the part of the sequence covering
visible range `[start, endP)` under perspective `p`, splitting boundary
segments; used by remove (tombstoning) and annotate. -/
def updateRange (p : Perspective) (start endP : Nat) (f : Segment → Segment) :
    List Segment → List Segment
  | [] => []
  | s :: rest =>
      let v := visLen p s
      if endP ≤ start then s :: rest
      else if v ≤ start then
        s :: updateRange p (start - v) (endP - v) f rest
      else
        let hi := min endP v
        let pre := if 0 < start then [splitLeft s start] else []
        let mid := f (splitRight (splitLeft s hi) start)
        let post := if hi < v then [splitRight s hi] else []
        pre ++ mid :: post ++ updateRange p 0 (endP - v) f rest

/-- Modelled from the spec: merge annotation properties last-writer-wins
per key — the new writer's keys replace the old values. -/
def mergeProps (newProps oldProps : List (String × Nat)) :
    List (String × Nat) :=
  newProps ++ oldProps.filter (fun kv => !(newProps.map Prod.fst).contains kv.1)

/-- Modelled from the spec: the operation payload of an inbound op. -/
inductive RemoteOpKind where
  | insert (pos : Nat) (content : String)
  | remove (start endP : Nat)
  | annotate (start endP : Nat) (props : List (String × Nat))
deriving DecidableEq

/-- Modelled from the spec: an inbound op record from the network — its
assigned sequence number, the sender's reference sequence number, the
sender's client id and the operation. -/
structure RemoteOp where
  seq : Nat
  refSeq : Nat
  clientId : String
  kind : RemoteOpKind
deriving DecidableEq

/-- Stamp the pending segments of acknowledged local edit `l` with their
assigned sequence number `q`. -/
def stampAck (l q : Nat) (segs : List Segment) : List Segment :=
  segs.map (fun s =>
    if s.localSeq = some l && s.seq.isNone then { s with seq := some q } else s)

/-- Modelled from the spec (section 4.4): remote op arrival. A corrupted
replica applies nothing (fail closed). An op with `seq ≤ currentSeq` is
discarded (idempotence guard). An op from the local client acknowledges
the oldest pending edit. Otherwise the op is positioned under the sender's
`Remote refSeq` perspective and applied structurally; a structurally
invalid op is a fatal protocol violation that corrupts the replica. Every
applied op advances `currentSeq` to its sequence number. -/
def applyRemoteOp (op : RemoteOp) (st : MergeTree) : MergeTree :=
  if st.corrupted then st
  else if op.seq ≤ st.currentSeq then st
  else if op.clientId = st.localClientId then
    match st.pending with
    | [] => { st with currentSeq := op.seq }
    | l :: rest =>
        { st with segments := stampAck l op.seq st.segments,
                  pending := rest, currentSeq := op.seq }
  else
    match op.kind with
    | .insert pos content =>
        if lengthAt (.remote op.refSeq) st.segments < pos then
          { st with corrupted := true }
        else
          { st with
            segments := spliceAt (.remote op.refSeq) pos
              { segId := st.nextSegId, len := content.length,
                content := content, seq := some op.seq,
                clientId := op.clientId, localSeq := none,
                removedSeq := none, props := [] } st.segments,
            nextSegId := st.nextSegId + 1, currentSeq := op.seq }
    | .remove start endP =>
        if endP < start ∨ lengthAt (.remote op.refSeq) st.segments < endP then
          { st with corrupted := true }
        else
          { st with
            segments := updateRange (.remote op.refSeq) start endP
              (fun s => { s with removedSeq := some op.seq }) st.segments,
            currentSeq := op.seq }
    | .annotate start endP props =>
        if endP < start ∨ lengthAt (.remote op.refSeq) st.segments < endP then
          { st with corrupted := true }
        else
          { st with
            segments := updateRange (.remote op.refSeq) start endP
              (fun s => { s with props := mergeProps props s.props }) st.segments,
            currentSeq := op.seq }

/-- Modelled from the spec: window advance — `minSeq` is recomputed from
the collaborating clients' reported reference sequence numbers; it never
moves backwards and never passes `currentSeq`. -/
def advanceWindow (newMin : Nat) (st : MergeTree) : MergeTree :=
  { st with minSeq := max st.minSeq (min newMin st.currentSeq) }

/-- Modelled from the spec: compaction ("zamboni") — physically evict
exactly the tombstoned segments whose `removedSeq` is below the
collaboration window's `minSeq`. -/
def zamboni (st : MergeTree) : MergeTree :=
  { st with segments := st.segments.filter (fun s =>
      match s.removedSeq with
      | some r => decide (st.minSeq ≤ r)
      | none => true) }

/-- The operations of the pipeline, for invariant statements quantifying
over every operation. -/
inductive MtOp where
  | localInsert (pos : Nat) (content : String)
  | remoteArrival (op : RemoteOp)
  | windowAdvance (newMin : Nat)
  | compact
deriving DecidableEq

/-- One pipeline step. -/
def step : MtOp → MergeTree → MergeTree
  | .localInsert pos c, st => (tryInsertLocal pos c st).2
  | .remoteArrival op, st => applyRemoteOp op st
  | .windowAdvance m, st => advanceWindow m st
  | .compact, st => zamboni st

/-- Modelled from the spec: the data the ordering comparator consults for
two concurrent ops (equal or unassigned sequence numbers): the reference
sequence number, the client id and the per-client local sequence number. -/
structure OpStamp where
  refSeq : Nat
  clientId : String
  localSeq : Nat
deriving DecidableEq

/-- Modelled from the spec (section 4.2): the deterministic tie-break
order over concurrent ops — by `(referenceSequenceNumber, clientId,
localSeq)`, lexicographically; client ids compare as strings. -/
def compareStamps (a b : OpStamp) : Ordering :=
  if a.refSeq < b.refSeq then .lt
  else if b.refSeq < a.refSeq then .gt
  else if a.clientId < b.clientId then .lt
  else if b.clientId < a.clientId then .gt
  else if a.localSeq < b.localSeq then .lt
  else if b.localSeq < a.localSeq then .gt
  else .eq

/-- The comparator as invoked on a replica: it takes the replica's state
and the list of remote ops it has applied so far, but the order it
produces consults neither — only the two stamps. -/
def replicaCompare (replica : MergeTree) (applied : List RemoteOp)
    (a b : OpStamp) : Ordering :=
  compareStamps a b

/-! ### Concrete replicas and ops used by the witnesses -/

/-- A fresh empty replica for client `"me"`. -/
def mtEmpty : MergeTree :=
  { segments := [], minSeq := 0, currentSeq := 0, localClientId := "me",
    nextLocalSeq := 0, nextSegId := 0, pending := [], corrupted := false }

/-- The replica after `insertLocal 0 "hi" mtEmpty`. -/
def mtAfterInsert : MergeTree :=
  { segments := [{ segId := 0, len := 2, content := "hi", seq := none,
                   clientId := "me", localSeq := some 0, removedSeq := none,
                   props := [] }],
    minSeq := 0, currentSeq := 0, localClientId := "me",
    nextLocalSeq := 1, nextSegId := 1, pending := [0], corrupted := false }

/-- A tombstoned segment: inserted at sequence number 1, removed at
sequence number 5. -/
def segTomb : Segment :=
  { segId := 0, len := 3, content := "abc", seq := some 1, clientId := "a",
    localSeq := none, removedSeq := some 5, props := [] }

/-- A replica whose window has advanced past a tombstoned segment's
lifetime: `segTomb` with collaboration window `[2, 6]`. -/
def mtTombstone : MergeTree :=
  { segments := [segTomb],
    minSeq := 2, currentSeq := 6, localClientId := "me",
    nextLocalSeq := 0, nextSegId := 1, pending := [], corrupted := false }

/-- A remote op already covered by `mtTombstone`'s collaboration window. -/
def opSeen : RemoteOp :=
  { seq := 4, refSeq := 1, clientId := "b", kind := .insert 0 "x" }

/-! ### Theorems -/

/-- Abort undoes exactly the edits recorded by `applyBody`. -/
theorem txAbort_applyBody (es : List Edit) (c stk : List Edit) :
    txAbort (applyBody es c stk).2 (applyBody es c stk).1 = txAbort stk c := by
  induction es generalizing c stk with
  | nil => rfl
  | cons e rest ih =>
      simp only [applyBody]
      rw [ih (applyEdit e c) (e :: stk)]
      rfl

theorem treeContains_self (f : Forest) (node : Nat) :
    treeContains f node node = true := by
  rw [treeContains]
  simp

theorem treeContains_iff_mem_chain (f : Forest) (node : Nat) :
    ∀ other, treeContains f node other = true ↔ node ∈ ancestorChain f other := by
  intro other
  induction other using Nat.strong_induction_on with
  | _ other ih =>
    rw [treeContains, ancestorChain]
    by_cases heq : other = node
    · subst heq
      simp
    · simp only [if_neg heq]
      cases hpar : f.parentOf other with
      | none =>
          simp [Ne.symm heq]
      | some p =>
          rw [ih p (f.parent_lt other p hpar)]
          simp [Ne.symm heq]

/-- C1: if the body of `runTransaction` returns the value `"rollback"`, the
transaction is aborted: every change it made is discarded, the checkout is
left in exactly the state it had before the transaction started, none of
the transaction's edits is submitted to the network, and no exception is
raised. -/
theorem runTransaction_rollback_discards_all (c : Checkout) (es : List Edit) :
    runTransaction c { edits := es, outcome := .rollback } =
      { checkout := c, thrown := none } := by
  simp only [runTransaction]
  rw [txAbort_applyBody es c.content []]
  rfl

/-- C2: if the body of `runTransaction` throws an exception, no state
mutation persists (the transaction is aborted, all-or-nothing, and nothing
is submitted), and the same exception is propagated synchronously to the
caller. -/
theorem runTransaction_thrown_aborts_and_propagates
    (c : Checkout) (es : List Edit) (ex : Nat) :
    runTransaction c { edits := es, outcome := .thrown ex } =
      { checkout := c, thrown := some ex } := by
  simp only [runTransaction]
  rw [txAbort_applyBody es c.content []]
  rfl

/-- C8: `treeApi.contains` is reflexive (`contains(node, node)` is true),
and `contains(node, other)` is true exactly when `node` occurs in the
finite chain obtained by repeatedly taking the parent starting from
`other` (inclusive ancestor check). -/
theorem contains_is_inclusive_ancestor_check (f : Forest) (node other : Nat) :
    treeContains f node node = true ∧
      (treeContains f node other = true ↔ node ∈ ancestorChain f other) :=
  ⟨treeContains_self f node, treeContains_iff_mem_chain f node other⟩

theorem structuralName_perm (c : String) (t1 t2 : List SchemaId)
    (h : t1.Perm t2) : structuralName c t1 = structuralName c t2 := by
  unfold structuralName
  have hnames : (t1.map SchemaId.identifier).Perm (t2.map SchemaId.identifier) :=
    h.map _
  have hsorted :
      List.insertionSort (· ≤ ·) (t1.map SchemaId.identifier) =
        List.insertionSort (· ≤ ·) (t2.map SchemaId.identifier) :=
    List.eq_of_perm_of_sorted
      ((List.perm_insertionSort _ _).trans
        (hnames.trans (List.perm_insertionSort _ _).symm))
      (List.sorted_insertionSort _ _) (List.sorted_insertionSort _ _)
  simp only [hsorted]

theorem getOrCreate_cached (st : SchemaFactoryState) (k : String) :
    getOrCreate (getOrCreate st k).2 k = getOrCreate st k := by
  unfold getOrCreate
  cases h : lookupStructural st.structuralTypes k with
  | some v => simp [h]
  | none => simp [h, lookupStructural]

theorem runSets_never_marked (flex2 : Nat) :
    ∀ (ops : List (Nat × Nat)) (st : CachingState),
      tryGetSimpleNodeSchema flex2 st = none →
      flex2 ∉ ops.map Prod.snd →
      tryGetSimpleNodeSchema flex2 (runSets ops st) = none := by
  intro ops
  induction ops with
  | nil => intro st h0 _; exact h0
  | cons p rest ih =>
      obtain ⟨s, f⟩ := p
      intro st h0 hnever
      simp only [List.map_cons, List.mem_cons, not_or] at hnever
      obtain ⟨hf, hrest⟩ := hnever
      simp only [runSets]
      apply ih _ _ hrest
      cases hset : setFlexSchemaFromClassSchema s f st with
      | none => simpa using h0
      | some st1 =>
          have hst1 : st1.simpleOf = (f, s) :: st.simpleOf := by
            unfold setFlexSchemaFromClassSchema at hset
            split at hset
            · exact absurd hset (by simp)
            · split at hset
              · exact absurd hset (by simp)
              · cases hset
                rfl
          simp only [Option.getD_some]
          unfold tryGetSimpleNodeSchema at h0 ⊢
          rw [hst1]
          simp only [lookupNat]
          rw [if_neg (fun hfe => hf hfe.symm)]
          exact h0

/-- C9: `structuralName` returns the same string for every permutation of
the `allowedTypes` array (names are sorted before serialization), and
consequently a second call to the structurally named `array` (or `map`)
overload of `SchemaFactory` with a permutation of the same allowed types
returns the identical cached schema object and leaves the factory
unchanged. -/
theorem structuralName_order_independent_and_cached
    (c : String) (t1 t2 : List SchemaId) (st : SchemaFactoryState)
    (h : t1.Perm t2) :
    structuralName c t1 = structuralName c t2 ∧
      factoryArray (factoryArray st t1).2 t2 = factoryArray st t1 ∧
      factoryMap (factoryMap st t1).2 t2 = factoryMap st t1 := by
  refine ⟨structuralName_perm c t1 t2 h, ?_, ?_⟩
  · unfold factoryArray
    rw [← structuralName_perm "Array" t1 t2 h]
    exact getOrCreate_cached st _
  · unfold factoryMap
    rw [← structuralName_perm "Map" t1 t2 h]
    exact getOrCreate_cached st _

/-- Witness for C9 at a concrete input: two orderings of the allowed types
`t.A`, `t.B` give the same structural name and the same cached schema. -/
theorem structuralName_order_independent_and_cached_witness :
    structuralName "Array" [⟨"t.B"⟩, ⟨"t.A"⟩] =
        structuralName "Array" [⟨"t.A"⟩, ⟨"t.B"⟩] ∧
      factoryArray (factoryArray ⟨[], 0⟩ [⟨"t.B"⟩, ⟨"t.A"⟩]).2
          [⟨"t.A"⟩, ⟨"t.B"⟩] = factoryArray ⟨[], 0⟩ [⟨"t.B"⟩, ⟨"t.A"⟩] ∧
      factoryMap (factoryMap ⟨[], 0⟩ [⟨"t.B"⟩, ⟨"t.A"⟩]).2
          [⟨"t.A"⟩, ⟨"t.B"⟩] = factoryMap ⟨[], 0⟩ [⟨"t.B"⟩, ⟨"t.A"⟩] :=
  structuralName_order_independent_and_cached "Array"
    [⟨"t.B"⟩, ⟨"t.A"⟩] [⟨"t.A"⟩, ⟨"t.B"⟩] ⟨[], 0⟩ (by decide)

/-- C10: after `setFlexSchemaFromClassSchema(simple, flex)` succeeds on a
previously unmarked pair, `tryGetSimpleNodeSchema(flex)` returns exactly
`simple` and `cachedFlexSchemaFromClassSchema(simple)` returns exactly
`flex`; and for every flex schema never passed to
`setFlexSchemaFromClassSchema`, `tryGetSimpleNodeSchema` returns
`undefined`. -/
theorem schemaCaching_roundTrip
    (simple flex : Nat) (st st' : CachingState) (ops : List (Nat × Nat))
    (flex2 : Nat)
    (hset : setFlexSchemaFromClassSchema simple flex st = some st')
    (hnever : flex2 ∉ ops.map Prod.snd) :
    tryGetSimpleNodeSchema flex st' = some simple ∧
      cachedFlexSchemaFromClassSchema simple st' = some flex ∧
      tryGetSimpleNodeSchema flex2 (runSets ops emptyCachingState) = none := by
  have hst' : st' = ⟨(simple, flex) :: st.flexOf, (flex, simple) :: st.simpleOf⟩ := by
    unfold setFlexSchemaFromClassSchema at hset
    split at hset
    · exact absurd hset (by simp)
    · split at hset
      · exact absurd hset (by simp)
      · injection hset with h2
        exact h2.symm
  subst hst'
  refine ⟨?_, ?_, ?_⟩
  · unfold tryGetSimpleNodeSchema
    simp [lookupNat]
  · unfold cachedFlexSchemaFromClassSchema
    simp [lookupNat]
  · exact runSets_never_marked flex2 ops emptyCachingState rfl hnever

/-- Witness for C10 at a concrete input: marking the pair `(1, 2)` on the
fresh state round-trips both ways, and flex schema `2` stays unmarked under
a run that never passes it to the marking function. -/
theorem schemaCaching_roundTrip_witness :
    tryGetSimpleNodeSchema 2 ⟨[(1, 2)], [(2, 1)]⟩ = some 1 ∧
      cachedFlexSchemaFromClassSchema 1 ⟨[(1, 2)], [(2, 1)]⟩ = some 2 ∧
      tryGetSimpleNodeSchema 2 (runSets [(3, 4)] emptyCachingState) = none :=
  schemaCaching_roundTrip 1 2 emptyCachingState ⟨[(1, 2)], [(2, 1)]⟩
    [(3, 4)] 2 (by decide) (by decide)

theorem applyRemoteOp_stay_corrupted (op : RemoteOp) (st : MergeTree)
    (h : st.corrupted = true) : applyRemoteOp op st = st := by
  unfold applyRemoteOp
  simp [h]

theorem applyRemoteOp_discard_seen (op : RemoteOp) (st : MergeTree)
    (h : op.seq ≤ st.currentSeq) : applyRemoteOp op st = st := by
  unfold applyRemoteOp
  split <;> simp [h]

theorem applyRemoteOp_corrupted_or_advanced (op : RemoteOp) (st : MergeTree)
    (hcor : st.corrupted = false) (hle : ¬ op.seq ≤ st.currentSeq) :
    (applyRemoteOp op st).corrupted = true ∨
      ((applyRemoteOp op st).corrupted = false ∧
        (applyRemoteOp op st).currentSeq = op.seq) := by
  unfold applyRemoteOp
  rw [hcor]
  simp only [Bool.false_eq_true, if_false, if_neg hle]
  split
  · split <;> simp [hcor]
  · split <;> (split <;> simp [hcor])

/-- C3: a remote op whose sequence number is at or below `currentSeq` is
discarded — the replica state (tree, collaboration window, pending log) is
unchanged; consequently applying any remote op a second time is a no-op. -/
theorem remoteOp_idempotence (op : RemoteOp) (st : MergeTree) :
    (op.seq ≤ st.currentSeq → applyRemoteOp op st = st) ∧
      applyRemoteOp op (applyRemoteOp op st) = applyRemoteOp op st := by
  constructor
  · intro h
    exact applyRemoteOp_discard_seen op st h
  · cases hcor : st.corrupted with
    | true =>
        have h1 := applyRemoteOp_stay_corrupted op st hcor
        rw [h1, h1]
    | false =>
        by_cases hle : op.seq ≤ st.currentSeq
        · have h1 := applyRemoteOp_discard_seen op st hle
          rw [h1, h1]
        · rcases applyRemoteOp_corrupted_or_advanced op st hcor hle with
            hk | ⟨hk1, hk2⟩
          · exact applyRemoteOp_stay_corrupted op _ hk
          · exact applyRemoteOp_discard_seen op _ (hk2 ▸ Nat.le_refl op.seq)

/-- Witness for C3 at a concrete input: `opSeen` has sequence number 4,
already covered by `mtTombstone`'s `currentSeq = 6`, so it is discarded and
re-application changes nothing. -/
theorem remoteOp_idempotence_witness :
    applyRemoteOp opSeen mtTombstone = mtTombstone ∧
      applyRemoteOp opSeen (applyRemoteOp opSeen mtTombstone) =
        applyRemoteOp opSeen mtTombstone :=
  ⟨(remoteOp_idempotence opSeen mtTombstone).1 (by decide),
   (remoteOp_idempotence opSeen mtTombstone).2⟩

theorem lengthAt_cons (p : Perspective) (s : Segment) (rest : List Segment) :
    lengthAt p (s :: rest) = visLen p s + lengthAt p rest := by
  simp [lengthAt]

theorem visibleIn_splitLeft (s : Segment) (k : Nat) (p : Perspective) :
    (splitLeft s k).visibleIn p = s.visibleIn p := by
  cases p <;> simp [splitLeft, Segment.visibleIn]

theorem queryPositionAux_cons (p : Perspective) (sid acc : Nat)
    (s : Segment) (rest : List Segment) :
    queryPositionAux p sid acc (s :: rest) =
      if s.segId = sid then some acc
      else queryPositionAux p sid (acc + visLen p s) rest := rfl

theorem queryPositionAux_spliceAt (p : Perspective) (n : Segment) :
    ∀ (segs : List Segment) (pos acc : Nat),
      (∀ s ∈ segs, s.segId ≠ n.segId) →
      pos ≤ lengthAt p segs →
      queryPositionAux p n.segId acc (spliceAt p pos n segs) =
        some (acc + pos) := by
  intro segs
  induction segs with
  | nil =>
      intro pos acc _ hle
      simp only [lengthAt, List.map_nil, List.sum_nil, Nat.le_zero] at hle
      subst hle
      simp [spliceAt, queryPositionAux]
  | cons s rest ih =>
      intro pos acc hnot hle
      have hs : s.segId ≠ n.segId := hnot s (List.mem_cons_self s rest)
      have hrest : ∀ t ∈ rest, t.segId ≠ n.segId :=
        fun t ht => hnot t (List.mem_cons_of_mem s ht)
      rw [lengthAt_cons] at hle
      simp only [spliceAt]
      by_cases hlt : pos < visLen p s
      · rw [if_pos hlt]
        by_cases hz : pos = 0
        · subst hz
          simp [queryPositionAux]
        · rw [if_neg hz]
          have hvis : s.visibleIn p = true := by
            by_contra hv
            have hfalse : s.visibleIn p = false := by
              revert hv
              cases s.visibleIn p <;> simp
            have hv0 : visLen p s = 0 := by
              simp [visLen, hfalse]
            omega
          have h1 : visLen p (splitLeft s pos) = pos := by
            unfold visLen
            rw [visibleIn_splitLeft, hvis]
            simp [splitLeft]
          rw [queryPositionAux_cons,
            if_neg (by simpa [splitLeft] using hs), h1,
            queryPositionAux_cons, if_pos rfl]
      · rw [if_neg hlt]
        simp only [queryPositionAux]
        rw [if_neg hs]
        rw [ih (pos - visLen p s) (acc + visLen p s) hrest (by omega)]
        congr 1
        omega

/-- C4: a successful local insert at position `pos` returns a segment
identity whose `queryPosition` under the `Local` perspective, before any
remote ops arrive, is exactly `pos`. -/
theorem insert_queryPosition_roundTrip (st : MergeTree) (pos : Nat)
    (content : String) (sid : Nat) (st' : MergeTree)
    (hfresh : idsFresh st = true)
    (hins : insertLocal pos content st = .ok (sid, st')) :
    queryPosition .localView sid st'.segments = some pos := by
  unfold insertLocal insertSeg at hins
  by_cases hgt : pos > lengthAt .localView st.segments
  · rw [if_pos hgt] at hins
    simp at hins
  · rw [if_neg hgt] at hins
    simp only [Except.ok.injEq, Prod.mk.injEq] at hins
    obtain ⟨h1, h2⟩ := hins
    subst h1
    have hnot : ∀ s ∈ st.segments, s.segId ≠ st.nextSegId := by
      intro s hsmem
      have := List.all_eq_true.mp hfresh s hsmem
      simp only [decide_eq_true_eq] at this
      omega
    have hle : pos ≤ lengthAt .localView st.segments := Nat.not_lt.mp hgt
    have key := queryPositionAux_spliceAt .localView
      { segId := st.nextSegId, len := content.length, content := content,
        seq := none, clientId := st.localClientId,
        localSeq := some st.nextLocalSeq, removedSeq := none, props := [] }
      st.segments pos 0 hnot hle
    rw [← h2]
    unfold queryPosition
    simpa using key

/-- Witness for C4 at a concrete input: inserting `"hi"` at position 0 of
the fresh replica yields segment identity 0, whose local-perspective
position is 0. -/
theorem insert_queryPosition_roundTrip_witness :
    idsFresh mtEmpty = true ∧
      insertLocal 0 "hi" mtEmpty = .ok (0, mtAfterInsert) ∧
      queryPosition .localView 0 mtAfterInsert.segments = some 0 :=
  ⟨rfl, rfl,
   insert_queryPosition_roundTrip mtEmpty 0 "hi" 0 mtAfterInsert rfl rfl⟩

/-- C5: an insert whose position exceeds the current length under the given
perspective fails with `InvalidPosition`; a so-rejected local edit leaves
the replica state — in particular its pending log — completely unchanged. -/
theorem insert_rejects_bad_position (pos : Nat) (n : Segment)
    (p : Perspective) (segs : List Segment) (content : String)
    (st : MergeTree)
    (hp : lengthAt p segs < pos)
    (hl : lengthAt .localView st.segments < pos) :
    insertSeg pos n p segs = .error .invalidPosition ∧
      tryInsertLocal pos content st = (some .invalidPosition, st) := by
  constructor
  · unfold insertSeg
    rw [if_pos hp]
  · unfold tryInsertLocal insertLocal insertSeg
    rw [if_pos hl]

/-- Witness for C5 at a concrete input: position 1 exceeds the empty
replica's length 0, so the insert is rejected and the state is returned
untouched. -/
theorem insert_rejects_bad_position_witness :
    insertSeg 1
        { segId := 0, len := 1, content := "x", seq := none,
          clientId := "me", localSeq := some 0, removedSeq := none,
          props := [] } .localView [] = .error .invalidPosition ∧
      tryInsertLocal 1 "x" mtEmpty = (some .invalidPosition, mtEmpty) :=
  insert_rejects_bad_position 1
    { segId := 0, len := 1, content := "x", seq := none, clientId := "me",
      localSeq := some 0, removedSeq := none, props := [] }
    .localView [] "x" mtEmpty (by decide) (by decide)

theorem tryInsertLocal_window (pos : Nat) (c : String) (st : MergeTree) :
    ((tryInsertLocal pos c st).2).minSeq = st.minSeq ∧
      ((tryInsertLocal pos c st).2).currentSeq = st.currentSeq := by
  unfold tryInsertLocal insertLocal insertSeg
  by_cases hgt : lengthAt .localView st.segments < pos
  · rw [if_pos hgt]
    exact ⟨rfl, rfl⟩
  · rw [if_neg hgt]
    exact ⟨rfl, rfl⟩

theorem applyRemoteOp_window (op : RemoteOp) (st : MergeTree)
    (hinv : st.minSeq ≤ st.currentSeq) :
    (applyRemoteOp op st).minSeq ≤ (applyRemoteOp op st).currentSeq := by
  unfold applyRemoteOp
  split
  · exact hinv
  · split
    · exact hinv
    · split
      · split
        all_goals (dsimp only; omega)
      · split
        all_goals (split <;> (dsimp only; omega))

/-- C6: every pipeline operation preserves the collaboration-window
invariant `minSeq ≤ currentSeq`; compaction never physically evicts a
segment whose `removedSeq ≥ minSeq`; and a segment visible at `seq`
(inserted at or before it) with `seq < removedSeq` is still counted, at
its full length, by `lengthAt (Remote seq)`. -/
theorem window_and_tombstone_safety (st : MergeTree) (o : MtOp)
    (hinv : st.minSeq ≤ st.currentSeq) :
    (step o st).minSeq ≤ (step o st).currentSeq ∧
      (∀ s ∈ st.segments, ∀ r, s.removedSeq = some r → st.minSeq ≤ r →
        s ∈ (zamboni st).segments) ∧
      (∀ s : Segment, ∀ i q r : Nat,
        s.seq = some i → s.removedSeq = some r → i ≤ q → q < r →
        s.visibleIn (.remote q) = true ∧
          ∀ pre post : List Segment,
            lengthAt (.remote q) (pre ++ s :: post) =
              lengthAt (.remote q) pre + s.len + lengthAt (.remote q) post) := by
  refine ⟨?_, ?_, ?_⟩
  · cases o with
    | localInsert pos c =>
        have hw := tryInsertLocal_window pos c st
        show ((tryInsertLocal pos c st).2).minSeq ≤
          ((tryInsertLocal pos c st).2).currentSeq
        rw [hw.1, hw.2]
        exact hinv
    | remoteArrival op => exact applyRemoteOp_window op st hinv
    | windowAdvance m =>
        show (advanceWindow m st).minSeq ≤ (advanceWindow m st).currentSeq
        unfold advanceWindow
        dsimp only
        exact max_le hinv (min_le_right _ _)
    | compact =>
        show (zamboni st).minSeq ≤ (zamboni st).currentSeq
        unfold zamboni
        exact hinv
  · intro s hmem r hr hge
    unfold zamboni
    dsimp only
    rw [List.mem_filter]
    refine ⟨hmem, ?_⟩
    rw [hr]
    simpa using hge
  · intro s i q r hseq hrem hle hlt
    have hvis : s.visibleIn (.remote q) = true := by
      simp [Segment.visibleIn, hseq, hrem, hle, hlt]
    refine ⟨hvis, ?_⟩
    intro pre post
    simp only [lengthAt, List.map_append, List.sum_append, List.map_cons,
      List.sum_cons]
    have : visLen (.remote q) s = s.len := by
      simp [visLen, hvis]
    omega

/-- Witness for C6 at a concrete input: on `mtTombstone` (window `[2, 6]`,
tombstone removed at 5) compaction keeps the window invariant and keeps
`segTomb`, which is still counted at length 3 under `Remote 3`. -/
theorem window_and_tombstone_safety_witness :
    (step .compact mtTombstone).minSeq ≤
        (step .compact mtTombstone).currentSeq ∧
      segTomb ∈ (zamboni mtTombstone).segments ∧
      segTomb.visibleIn (.remote 3) = true ∧
      lengthAt (.remote 3) ([] ++ segTomb :: []) =
        lengthAt (.remote 3) [] + segTomb.len + lengthAt (.remote 3) [] := by
  have T := window_and_tombstone_safety mtTombstone .compact (by decide)
  have T3 := T.2.2 segTomb 1 3 5 rfl rfl (by decide) (by decide)
  exact ⟨T.1, T.2.1 segTomb (by decide) 5 rfl (by decide), T3.1, T3.2 [] []⟩

/-- C7: for two concurrent inserts from different clients with equal
reference sequence numbers, every replica computes the identical order,
whatever its local state or the ops it has applied: the comparator is a
function of the stamps alone, it never declares the two ops equal, the
lower client id consistently wins, and the order is antisymmetric across
replicas. -/
theorem comparator_tie_break_deterministic
    (r1 r2 : MergeTree) (l1 l2 : List RemoteOp) (a b : OpStamp)
    (href : a.refSeq = b.refSeq) (hcl : a.clientId ≠ b.clientId) :
    replicaCompare r1 l1 a b = replicaCompare r2 l2 a b ∧
      replicaCompare r1 l1 a b ≠ .eq ∧
      (replicaCompare r1 l1 a b = .lt ↔ a.clientId < b.clientId) ∧
      (replicaCompare r1 l1 a b = .lt ↔ replicaCompare r2 l2 b a = .gt) := by
  rcases lt_trichotomy a.clientId b.clientId with h | h | h
  · simp [replicaCompare, compareStamps, href, h, asymm h]
  · exact absurd h hcl
  · simp [replicaCompare, compareStamps, href, h, asymm h]

/-- Witness for C7 at a concrete input: clients `"a"` and `"b"` with equal
reference sequence number 0 order identically on two different replicas,
and the lower client id wins. -/
theorem comparator_tie_break_deterministic_witness :
    replicaCompare mtEmpty [] ⟨0, "a", 0⟩ ⟨0, "b", 1⟩ =
        replicaCompare mtTombstone [opSeen] ⟨0, "a", 0⟩ ⟨0, "b", 1⟩ ∧
      replicaCompare mtEmpty [] ⟨0, "a", 0⟩ ⟨0, "b", 1⟩ ≠ .eq ∧
      (replicaCompare mtEmpty [] ⟨0, "a", 0⟩ ⟨0, "b", 1⟩ = .lt ↔
        ("a" : String) < "b") ∧
      (replicaCompare mtEmpty [] ⟨0, "a", 0⟩ ⟨0, "b", 1⟩ = .lt ↔
        replicaCompare mtTombstone [opSeen] ⟨0, "b", 1⟩ ⟨0, "a", 0⟩ = .gt) :=
  comparator_tie_break_deterministic mtEmpty mtTombstone [] [opSeen]
    ⟨0, "a", 0⟩ ⟨0, "b", 1⟩ rfl (by decide)

end FluidFramework
